import Mathlib

/-!
Shallow embedding of `deep-sort-yolov4/deep_sort/tracker.py`, the
multi-target tracker with occlusion-based identity recovery, together with
proofs about its behavior.

Conventions used throughout:

* Pixel coordinates are rationals (`ℚ`), standing in for Python floats; all
  claim-relevant comparisons are order comparisons that floats and rationals
  agree on for the concrete inputs considered.
* Track identifiers and the `_next_id` counter are integers (`ℤ`), standing
  in for Python's unbounded `int` (the counter is decremented in one branch
  of `update`, so it is not a natural number).
* The comparison `1 < sqrt s ∧ sqrt s ≤ 60` (with `s` a sum of squares,
  hence nonnegative) is embedded as `1 < s ∧ s ≤ 3600`: squaring is strictly
  monotone on nonnegatives, so the two forms are equivalent and the squared
  form is decidable over `ℚ`.
* The `Track` class (`deep_sort/track.py`) is not among the sources; its
  operations are modelled from the spec where noted.  The Kalman filter,
  the appearance metric and the assignment solvers are likewise absent and
  are abstracted: box motion/correction as opaque functions in a
  configuration record, the solvers as function parameters.
-/

/-- A bounding box in `(top-left x, top-left y, width, height)` form, the
format of `Detection.tlwh` and `Track.to_tlwh`. -/
structure Tlwh where
  x : ℚ
  y : ℚ
  w : ℚ
  h : ℚ
deriving DecidableEq

/-- One covered-ledger entry.  `Tracker.Covered_lists` holds triples
`[track_id, last_tlwh, frames_since_covered]` (see `Tracker.update`
line 96 and `Tracker.predict` lines 60–64). -/
structure CovEntry where
  id : ℤ
  box : Tlwh
  cnt : ℕ
deriving DecidableEq

/-- The covered-ledger loop of `Tracker.predict` (tracker.py lines 60–64):

```
for i, track in enumerate(self.Covered_lists):
    track[2] += 1
    if track[2] >= 140:
        self.Covered_lists.pop(i)
```

Python's list iterator reads index `i` from the live list and stops when the
index reaches the current length, so a `pop(i)` makes the next iteration
(index `i + 1`) skip the element that shifted into slot `i`. -/
def agePredict (l : List CovEntry) (i : ℕ) : List CovEntry :=
  if h : i < l.length then
    let e := l.get ⟨i, h⟩
    let l' := l.set i ⟨e.id, e.box, e.cnt + 1⟩
    if e.cnt + 1 ≥ 140 then
      agePredict (l'.eraseIdx i) (i + 1)
    else
      agePredict l' (i + 1)
  else
    l
termination_by l.length - i
decreasing_by
  all_goals simp only [List.length_eraseIdx, List.length_set]
  all_goals first
    | (split <;> omega)
    | omega

/-- Structural restatement of the `agePredict` scan, used to characterize it:
each visited entry is aged by one; an entry whose aged counter reaches 140 is
removed and the entry right after it is skipped (kept, unaged). -/
def ageScan : List CovEntry → List CovEntry
  | [] => []
  | e :: rest =>
    if e.cnt + 1 ≥ 140 then
      match rest with
      | [] => []
      | b :: rest' => b :: ageScan rest'
    else
      ⟨e.id, e.box, e.cnt + 1⟩ :: ageScan rest

/-- The reuse test `1 < D <= 60` of `Tracker.new_id_track` (tracker.py
lines 174–177), in squared form.  `D = sqrt((x2-x1)**2 + (y2-y1)**2)` is
computed from the raw `tlwh` coordinates `x, y`, i.e. the distance between
the top-left corners of the ledger box and the detection box. -/
def reuseHit (cover det : Tlwh) : Bool :=
  decide (1 < (cover.x - det.x) ^ 2 + (cover.y - det.y) ^ 2 ∧
    (cover.x - det.x) ^ 2 + (cover.y - det.y) ^ 2 ≤ 3600)

/-- Modelled from the spec: §4.6 step 4 describes the identity-reuse test as
"Euclidean center distance" within `(1, 60]`.  The center of a `tlwh` box is
`(x + w/2, y + h/2)`; the window is again taken in squared form.  This
definition follows the spec's words and exists to be compared with the
source-derived `reuseHit`. -/
def specCenterHit (cover det : Tlwh) : Prop :=
  1 < (cover.x + cover.w / 2 - (det.x + det.w / 2)) ^ 2 +
      (cover.y + cover.h / 2 - (det.y + det.h / 2)) ^ 2 ∧
  (cover.x + cover.w / 2 - (det.x + det.w / 2)) ^ 2 +
      (cover.y + cover.h / 2 - (det.y + det.h / 2)) ^ 2 ≤ 3600

instance (cover det : Tlwh) : Decidable (specCenterHit cover det) := by
  unfold specCenterHit; infer_instance

/-- `Tracker.new_id_track` (tracker.py lines 169–181): scan the covered
ledger in order; at the first entry whose box passes the reuse test against
the detection box, pop that entry and return its id.  Returns `none` when no
entry passes (the Python code returns `(False, -1)`). -/
def new_id_track : List CovEntry → Tlwh → Option (ℤ × List CovEntry)
  | [], _ => none
  | e :: rest, d =>
    if reuseHit e.box d then
      some (e.id, rest)
    else
      match new_id_track rest d with
      | some (oldId, rest') => some (oldId, e :: rest')
      | none => none

/-- Track lifecycle states (§4.5).  In `track.py` these are the integers
`Tentative = 1`, `Confirmed = 2`, `Deleted = 3`; `tracker.py` line 87 tests
`state == 3`. -/
inductive TState where
  | Tentative
  | Confirmed
  | Deleted
deriving DecidableEq

/-- A detection: bounding box plus appearance feature (§6).  The feature
vector is abstracted to a token (`ℕ`); the tracker only stores and forwards
features, never inspects them.  The confidence field is unused by
`Tracker.update` and omitted. -/
structure Det where
  tlwh : Tlwh
  feature : ℕ
deriving DecidableEq

/-- Modelled from the spec: the `Track` entity (`deep_sort/track.py` is not
among the sources; fields per §3).  The Kalman `mean`/`covariance` pair is
abstracted to the box it projects to via `to_tlwh`. -/
structure Track where
  track_id : ℤ
  state : TState
  hits : ℕ
  age : ℕ
  time_since_update : ℕ
  features : List ℕ
  Covered : Bool
  cover_frame : ℕ
  tlwh : Tlwh
deriving DecidableEq

/-- Configuration and abstracted collaborators: `max_iou_distance` plays no
role once the assignment solvers are abstracted, so it is omitted.
`predictBox`/`correctBox` abstract the Kalman predict/correct steps acting
on the projected box; `coverFn` abstracts the geometric occlusion-cover
test of `Track.is_Covered`, whose exact overlap rule the spec leaves open
(§9), taking the track's own box, the list of all current track boxes and
the overlap threshold. -/
structure Cfg where
  predictBox : Tlwh → Tlwh
  correctBox : Tlwh → Tlwh → Tlwh
  coverFn : Tlwh → List Tlwh → ℚ → Bool
  n_init : ℕ
  max_age : ℕ

/-- `Track.to_tlwh`: the current bounding-box estimate. -/
def Track.to_tlwh (t : Track) : Tlwh := t.tlwh

def Track.is_confirmed (t : Track) : Bool := t.state = TState.Confirmed

def Track.is_deleted (t : Track) : Bool := t.state = TState.Deleted

/-- Modelled from the spec: `Track.predict` (§3, §4.6) — advance the motion
filter one step, increment `age`, increment `time_since_update`. -/
def Track.predict (c : Cfg) (t : Track) : Track :=
  { t with tlwh := c.predictBox t.tlwh, age := t.age + 1,
           time_since_update := t.time_since_update + 1 }

/-- Modelled from the spec: `Track.update` on a match (§4.5) — motion-filter
correction, feature appended, `hits += 1`, `time_since_update = 0`, and
Tentative → Confirmed once the hit count reaches `n_init`. -/
def Track.update (c : Cfg) (t : Track) (d : Det) : Track :=
  { t with tlwh := c.correctBox t.tlwh d.tlwh,
           features := t.features ++ [d.feature],
           hits := t.hits + 1,
           time_since_update := 0,
           state := if t.state = TState.Tentative ∧ t.hits + 1 ≥ c.n_init then
                      TState.Confirmed
                    else t.state }

/-- Modelled from the spec: `Track.mark_missed` (§4.5) — any miss while
Tentative deletes the track; a Confirmed track is deleted once
`time_since_update` exceeds `max_age`. -/
def Track.mark_missed (c : Cfg) (t : Track) : Track :=
  if t.state = TState.Tentative then
    { t with state := TState.Deleted }
  else if t.time_since_update > c.max_age then
    { t with state := TState.Deleted }
  else t

/-- Modelled from the spec: `Track.is_Covered` (§4.6 step 3, §4.5) — run the
occlusion-cover test against all current track boxes at the given overlap
threshold and set the `Covered` flag when it triggers; the geometric rule
itself is the abstract `coverFn`. -/
def Track.is_Covered (c : Cfg) (boxes : List Tlwh) (τ : ℚ) (t : Track) : Track :=
  if c.coverFn t.tlwh boxes τ then { t with Covered := true } else t

/-- Modelled from the spec: a freshly initiated track (§4.5 Tentative
initial state; `Track.__init__` with `hits = 1`, `age = 1`,
`time_since_update = 0`). -/
def newTrack (tid : ℤ) (d : Det) : Track :=
  ⟨tid, TState.Tentative, 1, 1, 0, [d.feature], false, 0, d.tlwh⟩

def defDet : Det := ⟨⟨0, 0, 0, 0⟩, 0⟩

/-- Total list read used to embed Python's `self.tracks[i]`; every use site
is guarded by an in-range hypothesis or concrete index. -/
def getT (l : List Track) (i : ℕ) : Track := l.getD i (newTrack 0 defDet)

/-- The `Tracker` state: `tracks`, `_next_id` and `Covered_lists`
(tracker.py lines 48–50). -/
structure TrackerS where
  tracks : List Track
  next_id : ℤ
  Covered_lists : List CovEntry
deriving DecidableEq

namespace Tracker

/-- `Tracker.__init__`: no tracks, `_next_id = 1`, empty covered ledger. -/
def initState : TrackerS := ⟨[], 1, []⟩

/-- `Tracker.predict` (lines 52–64): advance every track's motion state and
run the covered-ledger aging loop. -/
def predict (c : Cfg) (s : TrackerS) : TrackerS :=
  ⟨s.tracks.map (Track.predict c), s.next_id, agePredict s.Covered_lists 0⟩

end Tracker

/-- `Tracker._initiate_track` (lines 154–167) acting on the mutable triple
`(tracks, _next_id, Covered_lists)`: consult `new_id_track`; on a hit,
append a track carrying the ledger id (ledger entry already popped);
otherwise append a track with `_next_id` and increment the counter. -/
def initiate_track (st : List Track × ℤ × List CovEntry) (d : Det) :
    List Track × ℤ × List CovEntry :=
  match new_id_track st.2.2 d.tlwh with
  | some (oldId, led') => (st.1 ++ [newTrack oldId d], st.2.1, led')
  | none => (st.1 ++ [newTrack st.2.1 d], st.2.1 + 1, st.2.2)

/-- The unmatched-detections loop of `Tracker.update` (lines 91–92). -/
def initStage (dets : List Det) (idxs : List ℕ)
    (st : List Track × ℤ × List CovEntry) : List Track × ℤ × List CovEntry :=
  idxs.foldl (fun st di => initiate_track st (dets.getD di defDet)) st

/-- The matched-tracks loop of `Tracker.update` (lines 82–83). -/
def applyMatches (c : Cfg) (dets : List Det) (tracks : List Track)
    (ms : List (ℕ × ℕ)) : List Track :=
  ms.foldl (fun acc p => acc.set p.1 (Track.update c (getT acc p.1) (dets.getD p.2 defDet)))
    tracks

/-- The per-track processing of the unmatched-tracks loop (lines 85–86):
`is_Covered(track_covered, 0.75)` then `mark_missed()`. -/
def missProc (c : Cfg) (boxes : List Tlwh) (t : Track) : Track :=
  Track.mark_missed c (Track.is_Covered c boxes (0.75 : ℚ) t)

/-- The unmatched-tracks loop of `Tracker.update` (lines 84–89), including
the `_next_id` decrement when the processed track ends up `Deleted` with
`time_since_update == 1`. -/
def missStage (c : Cfg) (boxes : List Tlwh) (unl : List ℕ)
    (tracks : List Track) (nid : ℤ) : List Track × ℤ :=
  unl.foldl
    (fun acc i =>
      let t := missProc c boxes (getT acc.1 i)
      (acc.1.set i t,
       if t.state = TState.Deleted ∧ t.time_since_update = 1 then acc.2 - 1 else acc.2))
    (tracks, nid)

def coverEntry (t : Track) : CovEntry := ⟨t.track_id, t.tlwh, t.cover_frame⟩

/-- The covered-ledger append loop of `Tracker.update` (lines 94–96). -/
def appendCovered (led : List CovEntry) (tracks : List Track) : List CovEntry :=
  tracks.foldl (fun acc t => if t.Covered then acc ++ [coverEntry t] else acc) led

/-- The retention predicate of line 97: keep tracks that are neither deleted
nor covered. -/
def keepTrack (t : Track) : Bool := !t.is_deleted && !t.Covered

/-- Lines 94–97 of `Tracker.update`: append every covered track to the
ledger, then rebuild the active set. -/
def finalizeStage (tracks : List Track) (led : List CovEntry) :
    List Track × List CovEntry :=
  (tracks.filter keepTrack, appendCovered led tracks)

/-- The record of one `metric.partial_fit(features, targets, active_targets)`
call (line 109–110); the appearance metric itself is external. -/
structure RefitCall where
  features : List ℕ
  targets : List ℤ
  active : List ℤ
deriving DecidableEq

/-- One step of the feature-gathering loop (lines 103–108): a confirmed
track contributes its accumulated features and its id once per feature,
and its accumulator is cleared; unconfirmed tracks pass through. -/
def refitStep (acc : List Track × List ℕ × List ℤ) (t : Track) :
    List Track × List ℕ × List ℤ :=
  if t.is_confirmed then
    (acc.1 ++ [{ t with features := [] }], acc.2.1 ++ t.features,
     acc.2.2 ++ List.replicate t.features.length t.track_id)
  else
    (acc.1 ++ [t], acc.2.1, acc.2.2)

/-- Lines 100–110 of `Tracker.update`: compute `active_targets` from the
confirmed tracks, gather features/targets (clearing accumulators), and
record the `partial_fit` arguments. -/
def refitStage (tracks : List Track) : List Track × RefitCall :=
  let active := (tracks.filter fun t => t.is_confirmed).map Track.track_id
  let r := tracks.foldl refitStep ([], [], [])
  (r.1, ⟨r.2.1, r.2.2, active⟩)

/-- The shape of an assignment result: `(matches, unmatched_tracks,
unmatched_detections)` as produced by `matching_cascade` and
`min_cost_matching`.  The first component is called `matched` here because
`matches` is reserved. -/
structure MatchOut where
  matched : List (ℕ × ℕ)
  unmatched_tracks : List ℕ
  unmatched_detections : List ℕ
deriving DecidableEq

/-- Modelled from the spec: the type of the assignment solvers
(`linear_assignment.matching_cascade` with `iou_matching`-based
`min_cost_matching` are not among the sources, §4.3–§4.4).  A solver maps
`(tracks, detections, candidate track indices, candidate detection
indices)` to a match outcome. -/
def Solver : Type :=
  List Track → List Det → List ℕ → List ℕ → MatchOut

/-- Modelled from the spec: well-formedness of a solver per §4.3–§4.4 —
matches draw from the candidate sets, every unmatched candidate is
reported, reported unmatched items are candidates, and no duplicates are
introduced beyond those of the candidate lists. -/
def WfSolver (f : Solver) : Prop :=
  ∀ tr de tc dc,
    (∀ p ∈ (f tr de tc dc).matched, p.1 ∈ tc ∧ p.2 ∈ dc) ∧
    (∀ k ∈ tc, (∀ j, (k, j) ∉ (f tr de tc dc).matched) →
        k ∈ (f tr de tc dc).unmatched_tracks) ∧
    (f tr de tc dc).unmatched_tracks ⊆ tc ∧
    (tc.Nodup → (f tr de tc dc).unmatched_tracks.Nodup) ∧
    (∀ j ∈ dc, (∀ k, (k, j) ∉ (f tr de tc dc).matched) →
        j ∈ (f tr de tc dc).unmatched_detections) ∧
    (f tr de tc dc).unmatched_detections ⊆ dc ∧
    (dc.Nodup → (f tr de tc dc).unmatched_detections.Nodup)

/-- A trivially well-formed solver producing no matches (realized, e.g.,
when every cost is gated infeasible). -/
def noneSolver : Solver := fun _ _ tc dc => ⟨[], tc, dc⟩

/-- Line 125–126: indices of confirmed tracks. -/
def confirmedIdx (tracks : List Track) : List ℕ :=
  (List.range tracks.length).filter fun i => (getT tracks i).is_confirmed

/-- Line 127–128: indices of unconfirmed tracks. -/
def unconfirmedIdx (tracks : List Track) : List ℕ :=
  (List.range tracks.length).filter fun i => !(getT tracks i).is_confirmed

/-- `Tracker._match` (lines 112–150): appearance cascade over the confirmed
tracks, then IOU matching over the unconfirmed tracks plus the
cascade-unmatched tracks with `time_since_update == 1`; cascade-unmatched
tracks with `time_since_update != 1` bypass the IOU stage.  Python's
`list(set(a + b))` is rendered as `(a ++ b).dedup` (the claims only use
membership in this list). -/
def matchStage (casc mcost : Solver) (tracks : List Track) (dets : List Det) :
    MatchOut :=
  let a := casc tracks dets (confirmedIdx tracks) (List.range dets.length)
  let cands := unconfirmedIdx tracks ++
    a.unmatched_tracks.filter fun k => (getT tracks k).time_since_update == 1
  let ua := a.unmatched_tracks.filter fun k => (getT tracks k).time_since_update != 1
  let b := mcost tracks dets cands a.unmatched_detections
  ⟨a.matched ++ b.matched, (ua ++ b.unmatched_tracks).dedup, b.unmatched_detections⟩

/-- The track-mutation prefix of `Tracker.update` (lines 80–89): snapshot
`track_covered` from the *pre-correction* tracks (line 80), apply the
matched-track corrections, then process the unmatched tracks. -/
def missTracks (c : Cfg) (s : TrackerS) (mo : MatchOut) (dets : List Det) :
    List Track × ℤ :=
  missStage c (s.tracks.map Track.to_tlwh) mo.unmatched_tracks
    (applyMatches c dets s.tracks mo.matched) s.next_id

/-- `Tracker.update` (lines 67–110) given the match outcome `mo` of
`_match`: matched corrections, unmatched processing (cover test, miss,
conditional `_next_id` decrement), new-track initiation, covered-ledger
movement and filtering, and the metric refit. -/
def updateWith (c : Cfg) (s : TrackerS) (mo : MatchOut) (dets : List Det) :
    TrackerS × RefitCall :=
  let ms := missTracks c s mo dets
  let is := initStage dets mo.unmatched_detections (ms.1, ms.2, s.Covered_lists)
  let fz := finalizeStage is.1 is.2.2
  let rf := refitStage fz.1
  (⟨rf.1, is.2.1, fz.2⟩, rf.2)

namespace Tracker

/-- `Tracker.update` with the two assignment solvers supplied. -/
def update (c : Cfg) (casc mcost : Solver) (s : TrackerS) (dets : List Det) :
    TrackerS × RefitCall :=
  updateWith c s (matchStage casc mcost s.tracks dets) dets

end Tracker

/-- Modelled from the spec: the outcomes `_match` can deliver (§4.3–§4.4,
line 150) — a partial matching between track indices and detection indices
whose unmatched lists are exactly the unmatched index sets. -/
def WfOutcome (mo : MatchOut) (nT nD : ℕ) : Prop :=
  (∀ p ∈ mo.matched, p.1 < nT ∧ p.2 < nD) ∧
  (mo.matched.map Prod.fst).Nodup ∧
  (mo.matched.map Prod.snd).Nodup ∧
  mo.unmatched_tracks.Nodup ∧
  mo.unmatched_detections.Nodup ∧
  (∀ i < nT, (i ∈ mo.unmatched_tracks ↔ i ∉ mo.matched.map Prod.fst)) ∧
  (∀ j < nD, (j ∈ mo.unmatched_detections ↔ j ∉ mo.matched.map Prod.snd)) ∧
  (∀ i ∈ mo.unmatched_tracks, i < nT) ∧
  (∀ j ∈ mo.unmatched_detections, j < nD)

instance (mo : MatchOut) (nT nD : ℕ) : Decidable (WfOutcome mo nT nD) := by
  unfold WfOutcome; infer_instance

/-- Reachable tracker states: start from `Tracker.__init__` and interleave
`predict` and `update` steps, the latter over any well-formed match
outcome (the assignment solvers are external to the sources, so every
well-formed outcome is admissible). -/
inductive Reach (c : Cfg) : TrackerS → Prop where
  | start : Reach c Tracker.initState
  | stepPredict {s : TrackerS} : Reach c s → Reach c (Tracker.predict c s)
  | stepUpdate {s : TrackerS} {mo : MatchOut} {dets : List Det} :
      Reach c s → WfOutcome mo s.tracks.length dets.length →
      Reach c (updateWith c s mo dets).1

theorem get_append_len {α : Type} (pre : List α) (e : α) (rest : List α)
    (h : pre.length < (pre ++ e :: rest).length) :
    (pre ++ e :: rest).get ⟨pre.length, h⟩ = e := by
  induction pre with
  | nil => rfl
  | cons a t ih => simpa using ih (by simp)

theorem set_append_len {α : Type} (pre : List α) (e x : α) (rest : List α) :
    (pre ++ e :: rest).set pre.length x = pre ++ x :: rest := by
  induction pre with
  | nil => rfl
  | cons a t ih => simp [ih]

theorem eraseIdx_append_len {α : Type} (pre : List α) (x : α) (rest : List α) :
    (pre ++ x :: rest).eraseIdx pre.length = pre ++ rest := by
  induction pre with
  | nil => rfl
  | cons a t ih => simpa using ih

theorem agePredict_stop (l : List CovEntry) (i : ℕ) (h : ¬ i < l.length) :
    agePredict l i = l := by
  rw [agePredict, dif_neg h]

theorem agePredict_split : ∀ (suf pre : List CovEntry),
    agePredict (pre ++ suf) pre.length = pre ++ ageScan suf
  | [], pre => by
    rw [agePredict_stop _ _ (by simp), ageScan]
  | [e], pre => by
    have h : pre.length < (pre ++ [e]).length := by simp
    rw [agePredict, dif_pos h]
    simp only [get_append_len, set_append_len]
    by_cases hc : e.cnt + 1 ≥ 140
    · rw [if_pos hc, eraseIdx_append_len,
        agePredict_stop _ _ (by simp), ageScan, if_pos hc]
    · rw [if_neg hc]
      rw [show pre.length + 1 = (pre ++ [(⟨e.id, e.box, e.cnt + 1⟩ : CovEntry)]).length by simp]
      rw [agePredict_stop _ _ (by simp), ageScan, if_neg hc, ageScan]
  | e :: b :: rest, pre => by
    have h : pre.length < (pre ++ e :: b :: rest).length := by simp
    rw [agePredict, dif_pos h]
    simp only [get_append_len, set_append_len]
    by_cases hc : e.cnt + 1 ≥ 140
    · rw [if_pos hc, eraseIdx_append_len]
      rw [show pre.length + 1 = (pre ++ [b]).length by simp]
      rw [show pre ++ b :: rest = (pre ++ [b]) ++ rest by simp]
      rw [agePredict_split rest (pre ++ [b])]
      rw [ageScan, if_pos hc]
      simp
    · rw [if_neg hc]
      rw [show pre.length + 1
          = (pre ++ [(⟨e.id, e.box, e.cnt + 1⟩ : CovEntry)]).length by simp]
      rw [show pre ++ (⟨e.id, e.box, e.cnt + 1⟩ : CovEntry) :: b :: rest
          = (pre ++ [(⟨e.id, e.box, e.cnt + 1⟩ : CovEntry)]) ++ b :: rest by simp]
      rw [agePredict_split (b :: rest) (pre ++ [(⟨e.id, e.box, e.cnt + 1⟩ : CovEntry)])]
      rw [ageScan, if_neg hc]
      simp

theorem agePredict_eq_scan (l : List CovEntry) : agePredict l 0 = ageScan l := by
  simpa using agePredict_split l []

/-- A concrete box used in ledger examples. -/
def boxA : Tlwh := ⟨3, 4, 10, 20⟩

/-- An identity-style configuration with the source defaults
`n_init = 11`, `max_age = 40`; the motion maps keep boxes unchanged on
predict and adopt the measurement on correction, and the cover test never
triggers. -/
def cfg0 : Cfg := ⟨fun b => b, fun _ m => m, fun _ _ _ => false, 11, 40⟩

/-- Helper: `new_id_track` misses when no ledger box passes the reuse
test. -/
theorem new_id_track_none (l : List CovEntry) (d : Tlwh)
    (h : ∀ e ∈ l, reuseHit e.box d = false) : new_id_track l d = none := by
  induction l with
  | nil => rfl
  | cons e rest ih =>
    rw [new_id_track]
    rw [if_neg (by simp [h e (by simp)])]
    rw [ih fun x hx => h x (by simp [hx])]

/-- Helper: `new_id_track` pops the first ledger entry passing the reuse
test and returns its id. -/
theorem new_id_track_first (l1 : List CovEntry) (e : CovEntry)
    (l2 : List CovEntry) (d : Tlwh)
    (h1 : ∀ x ∈ l1, reuseHit x.box d = false)
    (he : reuseHit e.box d = true) :
    new_id_track (l1 ++ e :: l2) d = some (e.id, l1 ++ l2) := by
  induction l1 with
  | nil => simp [new_id_track, he]
  | cons a t ih =>
    rw [List.cons_append, new_id_track]
    rw [if_neg (by simp [h1 a (by simp)])]
    rw [ih fun x hx => h1 x (by simp [hx])]
    rfl

/-- C1 (amended): initiating a track from an unmatched detection consults
the covered ledger with the Euclidean distance `D` between the *top-left
corners* (the raw `tlwh` origins) of ledger box and detection box: the
first entry with `1 < D ≤ 60` donates its id and is removed from the
ledger, leaving `_next_id` untouched; when no entry qualifies, the track
receives `_next_id` and the counter is incremented. -/
theorem C1_corner_window_reuse (led : List CovEntry) (d : Det)
    (tracks : List Track) (nid : ℤ) :
    ((∀ e ∈ led, reuseHit e.box d.tlwh = false) →
      initiate_track (tracks, nid, led) d = (tracks ++ [newTrack nid d], nid + 1, led)) ∧
    (∀ l1 e l2, led = l1 ++ e :: l2 →
      (∀ x ∈ l1, reuseHit x.box d.tlwh = false) →
      reuseHit e.box d.tlwh = true →
      initiate_track (tracks, nid, led) d = (tracks ++ [newTrack e.id d], nid, l1 ++ l2)) := by
  constructor
  · intro h
    simp [initiate_track, new_id_track_none led d.tlwh h]
  · intro l1 e l2 hsplit h1 he
    subst hsplit
    simp [initiate_track, new_id_track_first l1 e l2 d.tlwh h1 he]

/-- Witness for `C1_corner_window_reuse` at a concrete input: a ledger
entry at corner distance 10 from the detection donates id 7; the counter
stays at 5. -/
theorem C1_corner_window_reuse_witness :
    initiate_track ([], 5, [⟨7, ⟨10, 0, 100, 100⟩, 5⟩]) ⟨⟨0, 0, 0, 0⟩, 9⟩
      = ([newTrack 7 ⟨⟨0, 0, 0, 0⟩, 9⟩], 5, []) :=
  (C1_corner_window_reuse [⟨7, ⟨10, 0, 100, 100⟩, 5⟩] ⟨⟨0, 0, 0, 0⟩, 9⟩ [] 5).2
    [] ⟨7, ⟨10, 0, 100, 100⟩, 5⟩ [] rfl (by simp)
    (by simp [reuseHit]; norm_num)

/-- C1 counterexample to the claim as stated: the ledger box
`(10, 0, 100, 100)` is at center distance `sqrt 6100 > 60` from the
detection box `(0, 0, 0, 0)`, so by the claim the new track should get the
next sequential id `100` with the counter bumped to `101`; the code instead
reuses id `7` (corner distance 10) and leaves the counter at `100`. -/
theorem C1_center_distance_cx :
    ¬ specCenterHit (⟨10, 0, 100, 100⟩ : Tlwh) (⟨0, 0, 0, 0⟩ : Tlwh) ∧
    initiate_track ([], 100, [⟨7, ⟨10, 0, 100, 100⟩, 5⟩]) ⟨⟨0, 0, 0, 0⟩, 9⟩
      = ([newTrack 7 ⟨⟨0, 0, 0, 0⟩, 9⟩], 100, []) ∧
    (7 : ℤ) ≠ 100 := by
  refine ⟨?_, ?_, by decide⟩
  · simp only [specCenterHit]
    norm_num
  · have hhit : reuseHit (⟨10, 0, 100, 100⟩ : Tlwh) (⟨0, 0, 0, 0⟩ : Tlwh) = true := by
      simp [reuseHit]; norm_num
    simp [initiate_track, new_id_track, hhit]

/-- C2 (amended): every `predict` call runs the covered-ledger pass as a
single advancing-index scan: each visited entry's counter is incremented by
exactly one, the entry is removed exactly when the incremented counter
reaches at least 140 (not only strictly above), and a removal makes the
entry that shifts into the freed slot be skipped — neither incremented nor
examined — for the rest of that call (`ageScan` is precisely this scan). -/
theorem C2_predict_scans_ledger (c : Cfg) (s : TrackerS) :
    (Tracker.predict c s).Covered_lists = ageScan s.Covered_lists :=
  agePredict_eq_scan s.Covered_lists

/-- C2 counterexample to the claim as stated: (a) an entry with counter 139
is incremented to 140 — which does not exceed 140 — yet is dropped by
`predict`; (b) with a second entry behind it, that second entry is retained
without being incremented at all. -/
theorem C2_horizon_cx :
    (Tracker.predict cfg0 ⟨[], 5, [⟨1, boxA, 139⟩]⟩).Covered_lists = [] ∧
    139 + 1 ≤ 140 ∧
    (Tracker.predict cfg0 ⟨[], 5, [⟨1, boxA, 139⟩, ⟨2, boxA, 0⟩]⟩).Covered_lists
      = [⟨2, boxA, 0⟩] := by
  refine ⟨?_, by decide, ?_⟩
  · simp [Tracker.predict, agePredict]
  · simp [Tracker.predict, agePredict]

/-- C10: when the ledger loop of `predict` pops an expired entry at slot
`i`, the entry that shifts into slot `i` is skipped: with two consecutive
entries both one step from the horizon, one call removes only the first,
leaving the second unaged; with three such entries, the first and third are
removed while the second survives unaged. -/
theorem C10_pop_skips_shifted_entry :
    agePredict [⟨1, boxA, 139⟩, ⟨2, boxA, 139⟩] 0 = [⟨2, boxA, 139⟩] ∧
    agePredict [⟨1, boxA, 139⟩, ⟨2, boxA, 139⟩, ⟨3, boxA, 139⟩] 0
      = [⟨2, boxA, 139⟩] := by
  constructor <;> simp [agePredict]

theorem getT_set_self (l : List Track) (i : ℕ) (t : Track) (h : i < l.length) :
    getT (l.set i t) i = t := by
  simp [getT, List.getD_eq_getElem?_getD, List.getElem?_set_self h]

theorem getT_set_ne (l : List Track) (i j : ℕ) (t : Track) (h : i ≠ j) :
    getT (l.set i t) j = getT l j := by
  simp [getT, List.getD_eq_getElem?_getD, List.getElem?_set_ne h]

theorem missStage_length (c : Cfg) (boxes : List Tlwh) (unl : List ℕ)
    (tracks : List Track) (nid : ℤ) :
    (missStage c boxes unl tracks nid).1.length = tracks.length := by
  induction unl generalizing tracks nid with
  | nil => rfl
  | cons j rest ih => simp [missStage, List.foldl_cons] at ih ⊢; rw [ih]; simp

theorem missStage_not_mem (c : Cfg) (boxes : List Tlwh) (unl : List ℕ)
    (tracks : List Track) (nid : ℤ) (i : ℕ) (hi : i ∉ unl) :
    getT (missStage c boxes unl tracks nid).1 i = getT tracks i := by
  induction unl generalizing tracks nid with
  | nil => rfl
  | cons j rest ih =>
    simp only [missStage, List.foldl_cons] at ih ⊢
    rw [ih _ _ (fun h => hi (by simp [h]))]
    exact getT_set_ne _ _ _ _ (fun h => hi (by simp [h]))

theorem missStage_mem (c : Cfg) (boxes : List Tlwh) (unl : List ℕ)
    (tracks : List Track) (nid : ℤ) (hnd : unl.Nodup) (i : ℕ) (hi : i ∈ unl)
    (hlt : i < tracks.length) :
    getT (missStage c boxes unl tracks nid).1 i
      = missProc c boxes (getT tracks i) := by
  induction unl generalizing tracks nid with
  | nil => cases hi
  | cons j rest ih =>
    simp only [missStage, List.foldl_cons] at ih ⊢
    rcases List.mem_cons.mp hi with rfl | hmem
    · have hj : i ∉ rest := (List.nodup_cons.mp hnd).1
      have := missStage_not_mem c boxes rest
        (tracks.set i (missProc c boxes (getT tracks i)))
        (if (missProc c boxes (getT tracks i)).state = TState.Deleted ∧
            (missProc c boxes (getT tracks i)).time_since_update = 1
         then nid - 1 else nid) i hj
      simp only [missStage] at this
      rw [this, getT_set_self _ _ _ hlt]
    · have hne : j ≠ i := by
        rintro rfl; exact (List.nodup_cons.mp hnd).1 hmem
      rw [ih _ _ (List.nodup_cons.mp hnd).2 hmem (by simpa using hlt)]
      rw [getT_set_ne _ _ _ _ hne]

/-- The decrement condition of tracker.py line 87 applied to the processed
track: after the cover test and the miss, the track is `Deleted` with
`time_since_update == 1`. -/
def firstMissDelete (c : Cfg) (boxes : List Tlwh) (t : Track) : Bool :=
  decide ((missProc c boxes t).state = TState.Deleted ∧
    (missProc c boxes t).time_since_update = 1)

theorem missStage_counter (c : Cfg) (boxes : List Tlwh) (unl : List ℕ)
    (tracks : List Track) (nid : ℤ) (hnd : unl.Nodup)
    (hlt : ∀ i ∈ unl, i < tracks.length) :
    (missStage c boxes unl tracks nid).2
      = nid - (unl.countP fun i => firstMissDelete c boxes (getT tracks i) : ℕ) := by
  induction unl generalizing tracks nid with
  | nil => simp [missStage]
  | cons j rest ih =>
    simp only [missStage, List.foldl_cons] at ih ⊢
    rw [ih (tracks.set j (missProc c boxes (getT tracks j))) _
      (List.nodup_cons.mp hnd).2
      (fun i h => by simpa using hlt i (List.mem_cons_of_mem _ h))]
    have hcc : (rest.countP fun i =>
        firstMissDelete c boxes (getT (tracks.set j (missProc c boxes (getT tracks j))) i))
        = rest.countP fun i => firstMissDelete c boxes (getT tracks i) := by
      refine List.countP_congr fun x hx => ?_
      have hne : j ≠ x := by
        rintro rfl; exact (List.nodup_cons.mp hnd).1 hx
      rw [getT_set_ne _ _ _ _ hne]
    rw [hcc, List.countP_cons]
    by_cases hP : firstMissDelete c boxes (getT tracks j) = true
    · have hPP : (missProc c boxes (getT tracks j)).state = TState.Deleted ∧
          (missProc c boxes (getT tracks j)).time_since_update = 1 := by
        simpa [firstMissDelete] using hP
      rw [if_pos hPP, if_pos hP]
      push_cast
      ring
    · have hPP : ¬ ((missProc c boxes (getT tracks j)).state = TState.Deleted ∧
          (missProc c boxes (getT tracks j)).time_since_update = 1) := by
        simpa [firstMissDelete] using hP
      rw [if_neg hPP, if_neg hP]
      push_cast
      ring

theorem applyMatches_length (c : Cfg) (dets : List Det) (tracks : List Track)
    (ms : List (ℕ × ℕ)) :
    (applyMatches c dets tracks ms).length = tracks.length := by
  induction ms generalizing tracks with
  | nil => rfl
  | cons p rest ih =>
    simp only [applyMatches, List.foldl_cons] at ih ⊢
    rw [ih]; simp

theorem applyMatches_not_mem (c : Cfg) (dets : List Det) (tracks : List Track)
    (ms : List (ℕ × ℕ)) (i : ℕ) (hi : i ∉ ms.map Prod.fst) :
    getT (applyMatches c dets tracks ms) i = getT tracks i := by
  induction ms generalizing tracks with
  | nil => rfl
  | cons p rest ih =>
    simp only [applyMatches, List.foldl_cons] at ih ⊢
    rw [ih _ (fun h => hi (by simp at h ⊢; exact Or.inr h))]
    exact getT_set_ne _ _ _ _ (fun h => hi (by simp [h]))

/-- C9: inside `update`, every unmatched track is processed by first
evaluating the occlusion-cover test — against the snapshot of *all* track
boxes taken before any of this frame's matched-track corrections
(`track_covered`, line 80) at threshold `0.75` — and only then applying the
miss transition (`mark_missed`); moreover the track so processed is the
pre-correction track itself.  `missTracks` is, by definition, the track
mutation prefix of `updateWith`. -/
theorem C9_cover_snapshot_before_miss (c : Cfg) (s : TrackerS) (mo : MatchOut)
    (dets : List Det) (hnd : mo.unmatched_tracks.Nodup)
    (hlt : ∀ i ∈ mo.unmatched_tracks, i < s.tracks.length)
    (hdisj : ∀ i ∈ mo.unmatched_tracks, i ∉ mo.matched.map Prod.fst) :
    ∀ i ∈ mo.unmatched_tracks,
      getT (missTracks c s mo dets).1 i
        = Track.mark_missed c
            (Track.is_Covered c (s.tracks.map Track.to_tlwh) (0.75 : ℚ)
              (getT s.tracks i)) := by
  intro i hi
  unfold missTracks
  rw [missStage_mem c _ _ _ _ hnd i hi
    (by rw [applyMatches_length]; exact hlt i hi)]
  rw [applyMatches_not_mem c dets s.tracks mo.matched i (hdisj i hi)]
  rfl

/-- Witness for `C9_cover_snapshot_before_miss` at a concrete input: one
track, unmatched, no matches. -/
theorem C9_cover_snapshot_before_miss_witness :
    getT (missTracks cfg0 ⟨[newTrack 1 defDet], 2, []⟩ ⟨[], [0], []⟩ []).1 0
      = Track.mark_missed cfg0
          (Track.is_Covered cfg0 ([newTrack 1 defDet].map Track.to_tlwh) (0.75 : ℚ)
            (getT [newTrack 1 defDet] 0)) :=
  C9_cover_snapshot_before_miss cfg0 ⟨[newTrack 1 defDet], 2, []⟩ ⟨[], [0], []⟩ []
    (by simp) (by simp) (by simp) 0 (by simp)

/-- C4: across the unmatched-track loop of `update`, the `_next_id` counter
is decremented exactly once for every unmatched track that, after the cover
test and the miss transition, is `Deleted` with `time_since_update == 1` —
i.e. a track whose Deleted transition happens on the first miss after its
creation (tracker.py lines 87–89). -/
theorem C4_first_miss_decrement (c : Cfg) (boxes : List Tlwh) (unl : List ℕ)
    (tracks : List Track) (nid : ℤ) (hnd : unl.Nodup)
    (hlt : ∀ i ∈ unl, i < tracks.length) :
    (missStage c boxes unl tracks nid).2
      = nid - (unl.countP fun i => firstMissDelete c boxes (getT tracks i) : ℕ) :=
  missStage_counter c boxes unl tracks nid hnd hlt

/-- Witness for `C4_first_miss_decrement` at a concrete input: a single
Tentative track with `time_since_update = 1` is deleted on its first miss
and the counter drops from 5 to 4. -/
theorem C4_first_miss_decrement_witness :
    (missStage cfg0 [] [0]
      [⟨1, TState.Tentative, 1, 2, 1, [], false, 0, boxA⟩] 5).2 = 4 := by
  rw [C4_first_miss_decrement cfg0 [] [0]
    [⟨1, TState.Tentative, 1, 2, 1, [], false, 0, boxA⟩] 5 (by decide) (by decide)]
  decide

theorem appendCovered_eq (led : List CovEntry) (tracks : List Track) :
    appendCovered led tracks
      = led ++ (tracks.filter fun t => t.Covered).map coverEntry := by
  induction tracks generalizing led with
  | nil => simp [appendCovered]
  | cons t rest ih =>
    simp only [appendCovered, List.foldl_cons] at ih ⊢
    by_cases hc : t.Covered
    · rw [ih]; simp [hc]
    · rw [ih]; simp [hc]

/-- C5: after the track-management part of `update`, each processed track
sits in exactly one place — retained in the active set (iff it is neither
deleted nor covered), moved into the covered ledger (every covered track's
entry is appended, and the track leaves the active set), or dropped
entirely (deleted and not covered: gone from the active set and not
appended to the ledger); the previous ledger contents are preserved. -/
theorem C5_track_placement (tracks : List Track) (led : List CovEntry) :
    (finalizeStage tracks led).1 = tracks.filter keepTrack ∧
    (finalizeStage tracks led).2
      = led ++ (tracks.filter fun t => t.Covered).map coverEntry ∧
    (∀ t ∈ (finalizeStage tracks led).1, t.is_deleted = false ∧ t.Covered = false) ∧
    (∀ t ∈ tracks, t.is_deleted = false → t.Covered = false →
        t ∈ (finalizeStage tracks led).1) ∧
    (∀ t ∈ tracks, t.Covered = true →
        coverEntry t ∈ (finalizeStage tracks led).2 ∧
        t ∉ (finalizeStage tracks led).1) ∧
    (∀ t ∈ tracks, t.is_deleted = true → t ∉ (finalizeStage tracks led).1) ∧
    (∀ t ∈ tracks,
        (t.is_deleted = false ∧ t.Covered = false) ∨ t.Covered = true ∨
        (t.is_deleted = true ∧ t.Covered = false)) := by
  refine ⟨rfl, appendCovered_eq led tracks, ?_, ?_, ?_, ?_, ?_⟩
  · intro t ht
    have := List.of_mem_filter ht
    simpa [keepTrack] using this
  · intro t ht h1 h2
    exact List.mem_filter.mpr ⟨ht, by simp [keepTrack, h1, h2]⟩
  · intro t ht hc
    constructor
    · show coverEntry t ∈ appendCovered led tracks
      rw [appendCovered_eq]
      exact List.mem_append_right _
        (List.mem_map_of_mem _ (List.mem_filter.mpr ⟨ht, by simp [hc]⟩))
    · intro hmem
      have := List.of_mem_filter hmem
      simp [keepTrack, hc] at this
  · intro t ht hd hmem
    have := List.of_mem_filter hmem
    simp [keepTrack, hd] at this
  · intro t ht
    by_cases hc : t.Covered
    · exact Or.inr (Or.inl hc)
    · by_cases hd : t.is_deleted
      · exact Or.inr (Or.inr ⟨hd, by simpa using hc⟩)
      · exact Or.inl ⟨by simpa using hd, by simpa using hc⟩

/-- Witness for `C5_track_placement` at a concrete input: one covered
track, one deleted track, one plain track, over a nonempty ledger. -/
theorem C5_track_placement_witness :
    (finalizeStage
        [⟨1, TState.Confirmed, 3, 5, 1, [], true, 0, boxA⟩,
         ⟨2, TState.Deleted, 1, 2, 1, [], false, 0, boxA⟩,
         ⟨3, TState.Confirmed, 3, 5, 0, [7], false, 0, boxA⟩]
        [⟨9, boxA, 4⟩]).1
      = [⟨3, TState.Confirmed, 3, 5, 0, [7], false, 0, boxA⟩] ∧
    (finalizeStage
        [⟨1, TState.Confirmed, 3, 5, 1, [], true, 0, boxA⟩,
         ⟨2, TState.Deleted, 1, 2, 1, [], false, 0, boxA⟩,
         ⟨3, TState.Confirmed, 3, 5, 0, [7], false, 0, boxA⟩]
        [⟨9, boxA, 4⟩]).2
      = [⟨9, boxA, 4⟩, ⟨1, boxA, 0⟩] := by
  have h := C5_track_placement
    [⟨1, TState.Confirmed, 3, 5, 1, [], true, 0, boxA⟩,
     ⟨2, TState.Deleted, 1, 2, 1, [], false, 0, boxA⟩,
     ⟨3, TState.Confirmed, 3, 5, 0, [7], false, 0, boxA⟩]
    [⟨9, boxA, 4⟩]
  refine ⟨?_, ?_⟩
  · rw [h.1]
    simp [keepTrack, Track.is_deleted]
  · rw [h.2.1]
    simp [coverEntry]

theorem refit_foldl (tracks : List Track) (acc : List Track × List ℕ × List ℤ) :
    tracks.foldl refitStep acc
      = (acc.1 ++ tracks.map (fun t =>
            if t.is_confirmed then { t with features := [] } else t),
         acc.2.1 ++ (tracks.filter fun t => t.is_confirmed).flatMap Track.features,
         acc.2.2 ++ (tracks.filter fun t => t.is_confirmed).flatMap
            fun t => List.replicate t.features.length t.track_id) := by
  induction tracks generalizing acc with
  | nil => simp
  | cons t rest ih =>
    rw [List.foldl_cons, ih]
    by_cases hc : t.is_confirmed <;>
      simp [refitStep, hc]

/-- C7: the recorded `partial_fit` call gathers features and target ids
from exactly the Confirmed tracks of the refitted list (in order, ids
repeated once per contributed feature), its `active_targets` argument is
exactly the ids of those Confirmed tracks, each Confirmed track's feature
accumulator is empty afterwards, and `updateWith` feeds `refitStage` the
post-filter active set to produce both its final track list and its refit
record. -/
theorem C7_refit_confirmed_only (tracks : List Track) :
    (refitStage tracks).2.active
      = (tracks.filter fun t => t.is_confirmed).map Track.track_id ∧
    (refitStage tracks).2.features
      = (tracks.filter fun t => t.is_confirmed).flatMap Track.features ∧
    (refitStage tracks).2.targets
      = (tracks.filter fun t => t.is_confirmed).flatMap
          (fun t => List.replicate t.features.length t.track_id) ∧
    (refitStage tracks).1
      = tracks.map (fun t =>
          if t.is_confirmed then { t with features := [] } else t) ∧
    (∀ t ∈ (refitStage tracks).1, t.is_confirmed = true → t.features = []) ∧
    (∀ (c : Cfg) (s : TrackerS) (mo : MatchOut) (dets : List Det),
      (updateWith c s mo dets).1.tracks
        = (refitStage (finalizeStage
            (initStage dets mo.unmatched_detections
              ((missTracks c s mo dets).1, (missTracks c s mo dets).2,
                s.Covered_lists)).1
            ((initStage dets mo.unmatched_detections
              ((missTracks c s mo dets).1, (missTracks c s mo dets).2,
                s.Covered_lists)).2.2)).1).1 ∧
      (updateWith c s mo dets).2
        = (refitStage (finalizeStage
            (initStage dets mo.unmatched_detections
              ((missTracks c s mo dets).1, (missTracks c s mo dets).2,
                s.Covered_lists)).1
            ((initStage dets mo.unmatched_detections
              ((missTracks c s mo dets).1, (missTracks c s mo dets).2,
                s.Covered_lists)).2.2)).1).2) := by
  have hf := refit_foldl tracks ([], [], [])
  refine ⟨?_, ?_, ?_, ?_, ?_, fun c s mo dets => ⟨rfl, rfl⟩⟩
  · rfl
  · show (tracks.foldl refitStep ([], [], [])).2.1 = _
    rw [hf]; simp
  · show (tracks.foldl refitStep ([], [], [])).2.2 = _
    rw [hf]; simp
  · show (tracks.foldl refitStep ([], [], [])).1 = _
    rw [hf]; simp
  · intro t ht hc
    have h1 : (refitStage tracks).1
        = tracks.map (fun t =>
            if t.is_confirmed then { t with features := [] } else t) := by
      show (tracks.foldl refitStep ([], [], [])).1 = _
      rw [hf]; simp
    rw [h1] at ht
    obtain ⟨u, hu, hut⟩ := List.mem_map.mp ht
    by_cases huc : u.is_confirmed
    · rw [← hut]; simp [huc]
    · rw [← hut] at hc ⊢
      simp [huc] at hc ⊢

/-- Witness for `C7_refit_confirmed_only` at a concrete input: one
Confirmed track with two pending features and one Tentative track. -/
theorem C7_refit_confirmed_only_witness :
    (refitStage
        [⟨4, TState.Confirmed, 9, 9, 0, [21, 22], false, 0, boxA⟩,
         ⟨5, TState.Tentative, 1, 1, 0, [23], false, 0, boxA⟩]).2.features
      = [21, 22] ∧
    (refitStage
        [⟨4, TState.Confirmed, 9, 9, 0, [21, 22], false, 0, boxA⟩,
         ⟨5, TState.Tentative, 1, 1, 0, [23], false, 0, boxA⟩]).2.targets
      = [4, 4] ∧
    (refitStage
        [⟨4, TState.Confirmed, 9, 9, 0, [21, 22], false, 0, boxA⟩,
         ⟨5, TState.Tentative, 1, 1, 0, [23], false, 0, boxA⟩]).2.active
      = [4] := by
  have h := C7_refit_confirmed_only
    [⟨4, TState.Confirmed, 9, 9, 0, [21, 22], false, 0, boxA⟩,
     ⟨5, TState.Tentative, 1, 1, 0, [23], false, 0, boxA⟩]
  refine ⟨?_, ?_, ?_⟩
  · rw [h.2.1]; simp [Track.is_confirmed]
  · rw [h.2.2.1]; simp [Track.is_confirmed]
  · rw [h.1]; simp [Track.is_confirmed]

theorem wfSolver_noneSolver : WfSolver noneSolver := by
  intro tr de tc dc
  refine ⟨?_, ?_, ?_, ?_, ?_, ?_, ?_⟩ <;> simp [noneSolver]

/-- C6: in `_match`, the candidate list handed to the IOU stage is exactly
the unconfirmed tracks followed by the cascade-unmatched tracks with
`time_since_update == 1`; every cascade-unmatched track with
`time_since_update != 1` is excluded from those candidates and appears in
the returned unmatched-track list. -/
theorem C6_iou_candidates (casc mcost : Solver) (tracks : List Track)
    (dets : List Det) (hw : WfSolver casc) :
    (matchStage casc mcost tracks dets
      = ⟨(casc tracks dets (confirmedIdx tracks) (List.range dets.length)).matched
          ++ (mcost tracks dets
              (unconfirmedIdx tracks ++
                (casc tracks dets (confirmedIdx tracks)
                  (List.range dets.length)).unmatched_tracks.filter
                  (fun k => (getT tracks k).time_since_update == 1))
              (casc tracks dets (confirmedIdx tracks)
                (List.range dets.length)).unmatched_detections).matched,
         (((casc tracks dets (confirmedIdx tracks)
              (List.range dets.length)).unmatched_tracks.filter
              (fun k => (getT tracks k).time_since_update != 1))
          ++ (mcost tracks dets
              (unconfirmedIdx tracks ++
                (casc tracks dets (confirmedIdx tracks)
                  (List.range dets.length)).unmatched_tracks.filter
                  (fun k => (getT tracks k).time_since_update == 1))
              (casc tracks dets (confirmedIdx tracks)
                (List.range dets.length)).unmatched_detections).unmatched_tracks).dedup,
         (mcost tracks dets
            (unconfirmedIdx tracks ++
              (casc tracks dets (confirmedIdx tracks)
                (List.range dets.length)).unmatched_tracks.filter
                (fun k => (getT tracks k).time_since_update == 1))
            (casc tracks dets (confirmedIdx tracks)
              (List.range dets.length)).unmatched_detections).unmatched_detections⟩) ∧
    (∀ k ∈ (casc tracks dets (confirmedIdx tracks)
        (List.range dets.length)).unmatched_tracks,
      (getT tracks k).time_since_update ≠ 1 →
        k ∉ (unconfirmedIdx tracks ++
              (casc tracks dets (confirmedIdx tracks)
                (List.range dets.length)).unmatched_tracks.filter
                (fun k => (getT tracks k).time_since_update == 1)) ∧
        k ∈ (matchStage casc mcost tracks dets).unmatched_tracks) := by
  constructor
  · rfl
  · intro k hk hne
    constructor
    · intro hmem
      rcases List.mem_append.mp hmem with h1 | h2
      · have hsub := (hw tracks dets (confirmedIdx tracks) (List.range dets.length)).2.2.1
        have hkc : k ∈ confirmedIdx tracks := hsub hk
        have h1' := List.of_mem_filter h1
        have h2' := List.of_mem_filter hkc
        simp at h1' h2'
        simp [h2'] at h1'
      · have h2' := List.of_mem_filter h2
        simp at h2'
        exact hne h2'
    · simp only [matchStage, List.mem_dedup]
      exact List.mem_append_left _
        (List.mem_filter.mpr ⟨hk, by simpa using hne⟩)

/-- Witness for `C6_iou_candidates` at a concrete input: one Confirmed
track with `time_since_update = 2`, cascade matching nothing. -/
theorem C6_iou_candidates_witness :
    (0 : ℕ) ∉ (unconfirmedIdx [⟨1, TState.Confirmed, 5, 9, 2, [], false, 0, boxA⟩] ++
        (noneSolver [⟨1, TState.Confirmed, 5, 9, 2, [], false, 0, boxA⟩] []
          (confirmedIdx [⟨1, TState.Confirmed, 5, 9, 2, [], false, 0, boxA⟩])
          (List.range ([] : List Det).length)).unmatched_tracks.filter
          (fun k => (getT [⟨1, TState.Confirmed, 5, 9, 2, [], false, 0, boxA⟩] k).time_since_update == 1)) ∧
    (0 : ℕ) ∈ (matchStage noneSolver noneSolver
        [⟨1, TState.Confirmed, 5, 9, 2, [], false, 0, boxA⟩] []).unmatched_tracks :=
  (C6_iou_candidates noneSolver noneSolver
      [⟨1, TState.Confirmed, 5, 9, 2, [], false, 0, boxA⟩] []
      wfSolver_noneSolver).2 0 (by decide) (by decide)

theorem initiate_track_length (st : List Track × ℤ × List CovEntry) (d : Det) :
    (initiate_track st d).1.length = st.1.length + 1 := by
  unfold initiate_track
  cases new_id_track st.2.2 d.tlwh with
  | none => simp
  | some p => cases p; simp

theorem initStage_length (dets : List Det) (idxs : List ℕ)
    (st : List Track × ℤ × List CovEntry) :
    (initStage dets idxs st).1.length = st.1.length + idxs.length := by
  induction idxs generalizing st with
  | nil => simp [initStage]
  | cons j rest ih =>
    simp only [initStage, List.foldl_cons] at ih ⊢
    rw [ih, initiate_track_length]
    simp
    omega

theorem initStage_tracks (dets : List Det) (idxs : List ℕ)
    (st : List Track × ℤ × List CovEntry) :
    ∀ t ∈ (initStage dets idxs st).1,
      t ∈ st.1 ∨ ∃ tid d, t = newTrack tid d := by
  induction idxs generalizing st with
  | nil => intro t ht; exact Or.inl ht
  | cons j rest ih =>
    intro t ht
    simp only [initStage, List.foldl_cons] at ht
    rcases ih (initiate_track st (dets.getD j defDet)) t ht with hin | hnew
    · unfold initiate_track at hin
      cases hm : new_id_track st.2.2 (dets.getD j defDet).tlwh with
      | none =>
        rw [hm] at hin
        simp at hin
        rcases hin with h | h
        · exact Or.inl h
        · exact Or.inr ⟨_, _, h⟩
      | some p =>
        cases p
        rw [hm] at hin
        simp at hin
        rcases hin with h | h
        · exact Or.inl h
        · exact Or.inr ⟨_, _, h⟩
    · exact Or.inr hnew

theorem refitStage_length (tracks : List Track) :
    (refitStage tracks).1.length = tracks.length := by
  show (tracks.foldl refitStep ([], [], [])).1.length = _
  rw [refit_foldl]
  simp

theorem updateWith_length_empty_tracks (c : Cfg) (nid : ℤ)
    (led : List CovEntry) (mo : MatchOut) (dets : List Det) :
    (updateWith c ⟨[], nid, led⟩ mo dets).1.tracks.length
      = mo.unmatched_detections.length := by
  have hmt : (missTracks c ⟨[], nid, led⟩ mo dets).1 = [] :=
    List.length_eq_zero.mp
      (by unfold missTracks; rw [missStage_length, applyMatches_length]; rfl)
  show (refitStage (finalizeStage
      (initStage dets mo.unmatched_detections
        ((missTracks c ⟨[], nid, led⟩ mo dets).1,
         (missTracks c ⟨[], nid, led⟩ mo dets).2, led)).1
      ((initStage dets mo.unmatched_detections
        ((missTracks c ⟨[], nid, led⟩ mo dets).1,
         (missTracks c ⟨[], nid, led⟩ mo dets).2, led)).2.2)).1).1.length
    = mo.unmatched_detections.length
  rw [refitStage_length]
  have hkeep : ∀ t ∈ (initStage dets mo.unmatched_detections
      ((missTracks c ⟨[], nid, led⟩ mo dets).1,
       (missTracks c ⟨[], nid, led⟩ mo dets).2, led)).1,
      keepTrack t = true := by
    intro t ht
    rcases initStage_tracks _ _ _ t ht with hin | ⟨tid, d, rfl⟩
    · rw [hmt] at hin
      cases hin
    · rfl
  show ((initStage dets mo.unmatched_detections
      ((missTracks c ⟨[], nid, led⟩ mo dets).1,
       (missTracks c ⟨[], nid, led⟩ mo dets).2, led)).1.filter keepTrack).length
    = mo.unmatched_detections.length
  rw [List.filter_eq_self.mpr hkeep, initStage_length]
  rw [hmt]
  simp

/-- C8: degenerate inputs are handled as ordinary cases.  With an empty
detection list, the two-stage match produces no matches and no unmatched
detections, reports every track index unmatched, every active track is
processed with the cover-test-then-miss step, and the track list entering
the ledger/filter phase has the same length as before (no track initiated).
With no active tracks, the match produces no matches and no unmatched
tracks, reports every detection index unmatched, and `update` ends with
exactly one (fresh, retained) track per detection. -/
theorem C8_empty_inputs (c : Cfg) (casc mcost : Solver) (s : TrackerS)
    (dets : List Det) (hc : WfSolver casc) (hm : WfSolver mcost) :
    (dets = [] →
      (matchStage casc mcost s.tracks dets).matched = [] ∧
      (matchStage casc mcost s.tracks dets).unmatched_detections = [] ∧
      (∀ i < s.tracks.length,
        i ∈ (matchStage casc mcost s.tracks dets).unmatched_tracks) ∧
      (∀ i < s.tracks.length,
        getT (missTracks c s (matchStage casc mcost s.tracks dets) dets).1 i
          = missProc c (s.tracks.map Track.to_tlwh) (getT s.tracks i)) ∧
      (initStage dets (matchStage casc mcost s.tracks dets).unmatched_detections
          ((missTracks c s (matchStage casc mcost s.tracks dets) dets).1,
           (missTracks c s (matchStage casc mcost s.tracks dets) dets).2,
           s.Covered_lists)).1.length = s.tracks.length) ∧
    (s.tracks = [] →
      (matchStage casc mcost s.tracks dets).matched = [] ∧
      (matchStage casc mcost s.tracks dets).unmatched_tracks = [] ∧
      (∀ j < dets.length,
        j ∈ (matchStage casc mcost s.tracks dets).unmatched_detections) ∧
      (updateWith c s (matchStage casc mcost s.tracks dets) dets).1.tracks.length
        = dets.length) := by
  obtain ⟨tr, nid, led⟩ := s
  constructor
  · intro hdets
    subst hdets
    simp only at *
    have ha := hc tr [] (confirmedIdx tr) (List.range ([] : List Det).length)
    have hamat : (casc tr [] (confirmedIdx tr)
        (List.range ([] : List Det).length)).matched = [] := by
      rw [List.eq_nil_iff_forall_not_mem]
      intro p hp
      have := (ha.1 p hp).2
      simp at this
    have haud : (casc tr [] (confirmedIdx tr)
        (List.range ([] : List Det).length)).unmatched_detections = [] := by
      have := ha.2.2.2.2.2.1
      simpa using this
    have hb := hm tr []
      (unconfirmedIdx tr ++
        (casc tr [] (confirmedIdx tr)
          (List.range ([] : List Det).length)).unmatched_tracks.filter
          (fun k => (getT tr k).time_since_update == 1))
      (casc tr [] (confirmedIdx tr)
        (List.range ([] : List Det).length)).unmatched_detections
    have hbmat : (mcost tr []
        (unconfirmedIdx tr ++
          (casc tr [] (confirmedIdx tr)
            (List.range ([] : List Det).length)).unmatched_tracks.filter
            (fun k => (getT tr k).time_since_update == 1))
        (casc tr [] (confirmedIdx tr)
          (List.range ([] : List Det).length)).unmatched_detections).matched = [] := by
      rw [List.eq_nil_iff_forall_not_mem]
      intro p hp
      have := (hb.1 p hp).2
      rw [haud] at this
      simp at this
    have hbud : (mcost tr []
        (unconfirmedIdx tr ++
          (casc tr [] (confirmedIdx tr)
            (List.range ([] : List Det).length)).unmatched_tracks.filter
            (fun k => (getT tr k).time_since_update == 1))
        (casc tr [] (confirmedIdx tr)
          (List.range ([] : List Det).length)).unmatched_detections).unmatched_detections
        = [] := by
      have hsub := hb.2.2.2.2.2.1
      rw [List.eq_nil_iff_forall_not_mem]
      intro x hx
      have := hsub hx
      rw [haud] at this
      simp at this
    have hmsmat : (matchStage casc mcost tr []).matched = [] := by
      simp only [matchStage]
      rw [hamat, hbmat]
      rfl
    have hmsud : (matchStage casc mcost tr []).unmatched_detections = [] := hbud
    have hcomplete : ∀ i < tr.length,
        i ∈ (matchStage casc mcost tr []).unmatched_tracks := by
      intro i hi
      simp only [matchStage, List.mem_dedup, List.mem_append]
      have hnomatch : ∀ j, (i, j) ∉ (casc tr [] (confirmedIdx tr)
          (List.range ([] : List Det).length)).matched := by
        intro j hj
        rw [hamat] at hj
        cases hj
      have hnomatchb : ∀ j, (i, j) ∉ (mcost tr []
          (unconfirmedIdx tr ++
            (casc tr [] (confirmedIdx tr)
              (List.range ([] : List Det).length)).unmatched_tracks.filter
              (fun k => (getT tr k).time_since_update == 1))
          (casc tr [] (confirmedIdx tr)
            (List.range ([] : List Det).length)).unmatched_detections).matched := by
        intro j hj
        rw [hbmat] at hj
        cases hj
      by_cases hconf : (getT tr i).is_confirmed
      · have hic : i ∈ confirmedIdx tr :=
          List.mem_filter.mpr ⟨List.mem_range.mpr hi, hconf⟩
        have hia := ha.2.1 i hic hnomatch
        by_cases h1 : (getT tr i).time_since_update = 1
        · right
          exact hb.2.1 i (List.mem_append_right _
            (List.mem_filter.mpr ⟨hia, by simp [h1]⟩)) hnomatchb
        · left
          exact List.mem_filter.mpr ⟨hia, by simpa using h1⟩
      · right
        have hiu : i ∈ unconfirmedIdx tr :=
          List.mem_filter.mpr ⟨List.mem_range.mpr hi, by simpa using hconf⟩
        exact hb.2.1 i (List.mem_append_left _ hiu) hnomatchb
    refine ⟨hmsmat, hmsud, hcomplete, ?_, ?_⟩
    · intro i hi
      have hnodup : (matchStage casc mcost tr []).unmatched_tracks.Nodup := by
        simp only [matchStage]
        exact List.nodup_dedup _
      have happly : applyMatches c [] tr (matchStage casc mcost tr []).matched
          = tr := by
        rw [hmsmat]
        rfl
      show getT (missStage c (tr.map Track.to_tlwh)
          (matchStage casc mcost tr []).unmatched_tracks
          (applyMatches c [] tr (matchStage casc mcost tr []).matched) nid).1 i = _
      rw [happly]
      exact missStage_mem c _ _ _ _ hnodup i (hcomplete i hi) hi
    · rw [hmsud]
      show (missTracks c ⟨tr, nid, led⟩ (matchStage casc mcost tr []) []).1.length = _
      unfold missTracks
      rw [missStage_length, applyMatches_length]
  · intro htr
    subst htr
    simp only at *
    have ha := hc [] dets (confirmedIdx []) (List.range dets.length)
    have hamat : (casc [] dets (confirmedIdx [])
        (List.range dets.length)).matched = [] := by
      rw [List.eq_nil_iff_forall_not_mem]
      intro p hp
      have := (ha.1 p hp).1
      simp [confirmedIdx] at this
    have haun : (casc [] dets (confirmedIdx [])
        (List.range dets.length)).unmatched_tracks = [] := by
      have hsub := ha.2.2.1
      rw [List.eq_nil_iff_forall_not_mem]
      intro x hx
      have := hsub hx
      simp [confirmedIdx] at this
    have hb := hm [] dets
      (unconfirmedIdx [] ++
        (casc [] dets (confirmedIdx [])
          (List.range dets.length)).unmatched_tracks.filter
          (fun k => (getT [] k).time_since_update == 1))
      (casc [] dets (confirmedIdx [])
        (List.range dets.length)).unmatched_detections
    have hbmat : (mcost [] dets
        (unconfirmedIdx [] ++
          (casc [] dets (confirmedIdx [])
            (List.range dets.length)).unmatched_tracks.filter
            (fun k => (getT [] k).time_since_update == 1))
        (casc [] dets (confirmedIdx [])
          (List.range dets.length)).unmatched_detections).matched = [] := by
      rw [List.eq_nil_iff_forall_not_mem]
      intro p hp
      have := (hb.1 p hp).1
      rw [haun] at this
      simp [unconfirmedIdx] at this
    have hbun : (mcost [] dets
        (unconfirmedIdx [] ++
          (casc [] dets (confirmedIdx [])
            (List.range dets.length)).unmatched_tracks.filter
            (fun k => (getT [] k).time_since_update == 1))
        (casc [] dets (confirmedIdx [])
          (List.range dets.length)).unmatched_detections).unmatched_tracks = [] := by
      have hsub := hb.2.2.1
      rw [List.eq_nil_iff_forall_not_mem]
      intro x hx
      have := hsub hx
      rw [haun] at this
      simp [unconfirmedIdx] at this
    have hanomatch : ∀ j k, (k, j) ∉ (casc [] dets (confirmedIdx [])
        (List.range dets.length)).matched := by
      intro j k hk
      rw [hamat] at hk
      cases hk
    have hbnomatch : ∀ j k, (k, j) ∉ (mcost [] dets
        (unconfirmedIdx [] ++
          (casc [] dets (confirmedIdx [])
            (List.range dets.length)).unmatched_tracks.filter
            (fun k => (getT [] k).time_since_update == 1))
        (casc [] dets (confirmedIdx [])
          (List.range dets.length)).unmatched_detections).matched := by
      intro j k hk
      rw [hbmat] at hk
      cases hk
    have hudmem : ∀ j < dets.length, j ∈ (mcost [] dets
        (unconfirmedIdx [] ++
          (casc [] dets (confirmedIdx [])
            (List.range dets.length)).unmatched_tracks.filter
            (fun k => (getT [] k).time_since_update == 1))
        (casc [] dets (confirmedIdx [])
          (List.range dets.length)).unmatched_detections).unmatched_detections := by
      intro j hj
      exact hb.2.2.2.2.1 j
        (ha.2.2.2.2.1 j (List.mem_range.mpr hj) (hanomatch j)) (hbnomatch j)
    refine ⟨?_, ?_, ?_, ?_⟩
    · simp only [matchStage]
      rw [hamat, hbmat]
      rfl
    · simp only [matchStage]
      rw [hbun, haun]
      simp
    · intro j hj
      simp only [matchStage]
      exact hudmem j hj
    · have hudnodupA : (casc [] dets (confirmedIdx [])
          (List.range dets.length)).unmatched_detections.Nodup :=
        ha.2.2.2.2.2.2 (List.nodup_range _)
      have hudnodupB : (mcost [] dets
          (unconfirmedIdx [] ++
            (casc [] dets (confirmedIdx [])
              (List.range dets.length)).unmatched_tracks.filter
              (fun k => (getT [] k).time_since_update == 1))
          (casc [] dets (confirmedIdx [])
            (List.range dets.length)).unmatched_detections).unmatched_detections.Nodup :=
        hb.2.2.2.2.2.2 hudnodupA
      have hudiff : ∀ j, j ∈ (mcost [] dets
          (unconfirmedIdx [] ++
            (casc [] dets (confirmedIdx [])
              (List.range dets.length)).unmatched_tracks.filter
              (fun k => (getT [] k).time_since_update == 1))
          (casc [] dets (confirmedIdx [])
            (List.range dets.length)).unmatched_detections).unmatched_detections
          ↔ j ∈ List.range dets.length := by
        intro j
        constructor
        · intro hjb
          exact ha.2.2.2.2.2.1 (hb.2.2.2.2.2.1 hjb)
        · intro hjr
          exact hb.2.2.2.2.1 j
            (ha.2.2.2.2.1 j hjr (hanomatch j)) (hbnomatch j)
      have hudlen : (mcost [] dets
          (unconfirmedIdx [] ++
            (casc [] dets (confirmedIdx [])
              (List.range dets.length)).unmatched_tracks.filter
              (fun k => (getT [] k).time_since_update == 1))
          (casc [] dets (confirmedIdx [])
            (List.range dets.length)).unmatched_detections).unmatched_detections.length
          = dets.length := by
        have hperm := (List.perm_ext_iff_of_nodup hudnodupB (List.nodup_range _)).mpr hudiff
        simpa using hperm.length_eq
      rw [updateWith_length_empty_tracks]
      simp only [matchStage]
      exact hudlen

/-- Witness for `C8_empty_inputs` at concrete inputs: the empty state with
no detections, and the empty state with one detection (which ends with
exactly one track). -/
theorem C8_empty_inputs_witness :
    (matchStage noneSolver noneSolver ([] : List Track) ([] : List Det)).matched = [] ∧
    (matchStage noneSolver noneSolver ([] : List Track) ([] : List Det)).unmatched_tracks = [] ∧
    (matchStage noneSolver noneSolver ([] : List Track) ([] : List Det)).unmatched_detections = [] ∧
    (updateWith cfg0 ⟨[], 3, []⟩
      (matchStage noneSolver noneSolver [] []) []).1.tracks.length = 0 ∧
    (updateWith cfg0 ⟨[], 3, []⟩
      (matchStage noneSolver noneSolver [] [⟨⟨1, 2, 3, 4⟩, 5⟩])
      [⟨⟨1, 2, 3, 4⟩, 5⟩]).1.tracks.length = 1 := by
  have h := C8_empty_inputs cfg0 noneSolver noneSolver ⟨[], 3, []⟩ []
    wfSolver_noneSolver wfSolver_noneSolver
  have h2 := C8_empty_inputs cfg0 noneSolver noneSolver ⟨[], 3, []⟩
    [⟨⟨1, 2, 3, 4⟩, 5⟩] wfSolver_noneSolver wfSolver_noneSolver
  exact ⟨(h.1 rfl).1, (h.2 rfl).2.1, (h.1 rfl).2.1, (h.2 rfl).2.2.2,
    (h2.2 rfl).2.2.2⟩

/-- Frame 1 detections: two objects far apart. -/
def detsA : List Det := [⟨⟨0, 0, 10, 10⟩, 1⟩, ⟨⟨100, 100, 10, 10⟩, 2⟩]

/-- Frame 1 match outcome: no tracks yet, both detections unmatched. -/
def moA : MatchOut := ⟨[], [], [0, 1]⟩

def stateA : TrackerS := (updateWith cfg0 Tracker.initState moA detsA).1

/-- Frame 2 detection: only the second object is seen. -/
def detsB : List Det := [⟨⟨100, 100, 10, 10⟩, 3⟩]

/-- Frame 2 match outcome: track 1 matched, track 0 unmatched. -/
def moB : MatchOut := ⟨[(1, 0)], [0], []⟩

def stateB : TrackerS := (updateWith cfg0 (Tracker.predict cfg0 stateA) moB detsB).1

/-- Frame 3 detections: the second object and a new one. -/
def detsC : List Det := [⟨⟨100, 100, 10, 10⟩, 4⟩, ⟨⟨200, 200, 10, 10⟩, 5⟩]

/-- Frame 3 match outcome: track 0 matched, detection 1 unmatched. -/
def moC : MatchOut := ⟨[(0, 0)], [], [1]⟩

def stateC : TrackerS := (updateWith cfg0 (Tracker.predict cfg0 stateB) moC detsC).1

/-- C3: a reachable state holds two live tracks with the same id.  Frame 1
creates tracks with ids 1 and 2 (`_next_id = 3`).  In frame 2 track 1 is
unmatched on its first miss, so it is Deleted with
`time_since_update == 1` and `update` decrements `_next_id` to 2 — even
though id 2 is still held by the live second track.  In frame 3 an
unmatched detection then mints id 2 again, so two live tracks both carry
id 2, violating id uniqueness. -/
theorem C3_duplicate_live_ids :
    Reach cfg0 stateC ∧
    stateC.tracks.map Track.track_id = [2, 2] ∧
    ¬ (stateC.tracks.map Track.track_id).Nodup := by
  have hmap : stateC.tracks.map Track.track_id = [2, 2] := by
    simp [stateC, stateB, stateA, moA, moB, moC, detsA, detsB, detsC,
      Tracker.initState, Tracker.predict, Track.predict, Track.update,
      updateWith, missTracks, missStage, applyMatches, initStage,
      initiate_track, new_id_track, finalizeStage, appendCovered, keepTrack,
      refitStage, refitStep, getT, newTrack, Track.is_deleted,
      Track.is_confirmed, Track.is_Covered, Track.mark_missed, missProc,
      agePredict, cfg0, Track.to_tlwh]
  refine ⟨?_, hmap, by rw [hmap]; decide⟩
  exact Reach.stepUpdate
    (Reach.stepPredict
      (Reach.stepUpdate
        (Reach.stepPredict
          (Reach.stepUpdate Reach.start (by decide)))
        (by decide)))
    (by decide)
